import Mathlib

/-!
Shallow embedding of `src/main.rs` of the `shady` repository: a live-reloading
viewer for a small shader-description language.  The parsing / semantic
analysis / shader generation is delegated to the external `shady_script`
crate (not part of this repository); its outcome per reload is therefore an
abstract input (`ScriptResult`).  Everything else — window-set reconciliation
(`load_images`), per-frame event processing, the snapshot counter, the uniform
dispatch of `render`, and the loop control — is translated from the source.
-/

set_option autoImplicit false

namespace Shady

/-- Uniform kinds, from the external `shady_script::Uniform` enumeration
(elapsed time, mouse x, mouse y). -/
inductive Uniform where
  | Time
  | MouseX
  | MouseY
  deriving DecidableEq

/-- A compiled GL program, identified by the two sources it was built from
(`Program::from_source(display, vertex, fragment, None)` in the code). -/
structure Program where
  vertex : String
  fragment : String
  deriving DecidableEq

/-- `static vertex_shader_source` from `main.rs` (the full-screen quad
passthrough vertex shader). -/
def vertex_shader_source : String :=
  "\n    #version 330 core\n\n    in vec2 v_xy;\n    in vec2 v_uv;\n\n    out vec2 uv;\n\n    void main() \x7b\n        gl_Position = vec4(v_xy, 0, 1);\n        uv = v_uv;\n    \x7d\n"

/-- One image descriptor produced by the analyser: its generated standalone
shader source (`image.standalone_shader()`) and its ordered uniform list
(`image.standalone_uniforms()`). -/
structure Image where
  shader : String
  uniforms : List Uniform
  deriving DecidableEq

/-- `struct ImageDisplay` from `main.rs`.  The GL window/context handle and the
vertex buffer are opaque resources; we model their identities as numbers so
that "reuses the existing handle" and "newly created" are expressible. -/
structure ImageDisplay where
  window : Nat
  title : String
  buffer : Nat
  program : Program
  uniforms : List Uniform
  mouse_position : Int × Int
  done : Bool
  deriving DecidableEq

/-- `enum Error` from `main.rs` (payloads abstracted to their messages). -/
inductive Error where
  | IOError (e : String)
  | Parse (e : String)
  | Analyse (e : String)
  deriving DecidableEq

/-- The outcome of the file-read / `parse_input` / `analyse` pipeline for one
reload.  Reading, parsing and analysing live in the external `shady_script`
crate, so a reload's outcome is an abstract input of the model: either one of
the three failures, or the ordered image-descriptor list. -/
inductive ScriptResult where
  | ioError (e : String)
  | parseError (e : String)
  | analyseError (e : String)
  | ok (images : List Image)
  deriving DecidableEq

/-- Result of `load_images`: the display list and fresh-resource counter after
the call (the Rust function mutates `&mut Vec<ImageDisplay>` in place), plus
the returned error, if any. -/
structure LoadResult where
  displays : List ImageDisplay
  fresh : Nat
  err : Option Error
  deriving DecidableEq

/-- Program compilation from the fixed vertex shader and a generated fragment
shader (`Program::from_source(&display, vertex_shader_source, &shader, None)`). -/
def mkProgram (frag : String) : Program :=
  { vertex := vertex_shader_source, fragment := frag }

/-- The `Some(display)` arm of the reconciliation in `load_images`: the window
title, the program and the uniform list are replaced; the handle, the vertex
buffer, the mouse position and the `done` flag are untouched. -/
def updateDisplay (d : ImageDisplay) (image : Image) (idx : Nat) : ImageDisplay :=
  { d with
    title := "Shady Image " ++ toString idx
    program := mkProgram image.shader
    uniforms := image.uniforms }

/-- The `None` arm of the reconciliation in `load_images`: a fresh window and
fresh vertex buffer are built, the program compiled, the mouse position starts
at the origin and the display is open.  `fresh` is the identity of the newly
allocated window/buffer pair. -/
def newDisplay (image : Image) (idx fresh : Nat) : ImageDisplay :=
  { window := fresh
    title := "Shady Image " ++ toString idx
    buffer := fresh
    program := mkProgram image.shader
    uniforms := image.uniforms
    mouse_position := (0, 0)
    done := false }

/-- Intermediate result of the `sdy.with_images` loop. -/
structure ReconResult where
  displays : List ImageDisplay
  fresh : Nat
  deriving DecidableEq

/-- The `sdy.with_images(|image| ...)` loop of `load_images`: for each image at
position `idx`, `displays.get_mut(idx)` is `Some` exactly when `idx` is below
the length the vector had on entry (new displays are only ever pushed at the
end), so the loop is the simultaneous walk of the two lists; images beyond the
existing displays append fresh displays, displays beyond the images are left
untouched. -/
def reconcile : List ImageDisplay → List Image → Nat → Nat → ReconResult
  | displays, [], _, fresh => ⟨displays, fresh⟩
  | [], image :: rest, idx, fresh =>
      let r := reconcile [] rest (idx + 1) (fresh + 1)
      ⟨newDisplay image idx fresh :: r.displays, r.fresh⟩
  | d :: ds, image :: rest, idx, fresh =>
      let r := reconcile ds rest (idx + 1) fresh
      ⟨updateDisplay d image idx :: r.displays, r.fresh⟩

/-- `fn load_images` from `main.rs`.  A failure of reading, parsing or
analysing returns the corresponding error before the display list is touched;
on success the display list is reconciled against the image list. -/
def load_images (script : ScriptResult) (displays : List ImageDisplay) (fresh : Nat) :
    LoadResult :=
  match script with
  | .ioError e => ⟨displays, fresh, some (.IOError e)⟩
  | .parseError e => ⟨displays, fresh, some (.Parse e)⟩
  | .analyseError e => ⟨displays, fresh, some (.Analyse e)⟩
  | .ok images =>
      let r := reconcile displays images 0 fresh
      ⟨r.displays, r.fresh, none⟩

/-- The GLSL-side name a uniform kind is bound under in `render`. -/
def uniformName : Uniform → String
  | .Time => "time"
  | .MouseX => "mouse_x"
  | .MouseY => "mouse_y"

/-- The frame value a uniform kind is bound to in `render`. -/
def uniformValue (time mx my : ℚ) : Uniform → ℚ
  | .Time => time
  | .MouseX => mx
  | .MouseY => my

/-- `fn render` from `main.rs`, reduced to its observable binding behaviour:
the exhaustive eight-arm match on the uniform slice produces the ordered list
of named uniform values handed to `surface.draw`; the wildcard arm is the
`panic!` (modelled as `none`). -/
def render (uniforms : List Uniform) (time mx my : ℚ) :
    Option (List (String × ℚ)) :=
  match uniforms with
  | [] => some []
  | [.Time] => some [("time", time)]
  | [.MouseX] => some [("mouse_x", mx)]
  | [.MouseY] => some [("mouse_y", my)]
  | [.Time, .MouseX] => some [("time", time), ("mouse_x", mx)]
  | [.Time, .MouseY] => some [("time", time), ("mouse_y", my)]
  | [.MouseX, .MouseY] => some [("mouse_x", mx), ("mouse_y", my)]
  | [.Time, .MouseX, .MouseY] =>
      some [("time", time), ("mouse_x", mx), ("mouse_y", my)]
  | _ => none

/-- Modelled from the spec: the descriptor shape the external `ShaderCompiler`
(the `shady_script` crate, absent from this repository) can legally produce.
The spec describes an image's uniforms as an "ordered set of required uniform
kinds (drawn from a small closed enumeration: elapsed-time, mouse-x,
mouse-y)", i.e. a duplicate-free subsequence of the canonical order
`[Time, MouseX, MouseY]`. -/
def legalUniforms (us : List Uniform) : Prop :=
  us.Sublist [Uniform.Time, Uniform.MouseX, Uniform.MouseY]

/-- `glium::glutin::ElementState`. -/
inductive ElementState where
  | Pressed
  | Released
  deriving DecidableEq

/-- `glium::glutin::MouseButton` (non-`Left` buttons collapsed to the cases
the code distinguishes). -/
inductive MouseButton where
  | Left
  | Right
  | Middle
  | OtherButton
  deriving DecidableEq

/-- The `glium::glutin::Event` cases the per-frame poll loop distinguishes;
every other event falls into the wildcard arm. -/
inductive Event where
  | Closed
  | MouseMoved (x y : Int)
  | MouseInput (state : ElementState) (button : MouseButton)
  | Other
  deriving DecidableEq

/-- The per-display mutable state the event loop touches: the cached mouse
position and `done` flag of the display, and the frame-local `save` flag
(`let mut save = false`). -/
structure FrameEventState where
  mouse_position : Int × Int
  done : Bool
  save : Bool
  deriving DecidableEq

/-- The `as i32` cast of the `u32` window dimensions (`size.0 as i32`). -/
def toI32 (n : Nat) : Int :=
  (((n + 2 ^ 31) % 2 ^ 32 : ℕ) : Int) - 2 ^ 31

/-- The click guard of the `MouseInput(Pressed, Left)` arm: the cached mouse
position is strictly inside the window's pixel bounds. -/
def insideBounds (size : Nat × Nat) (pos : Int × Int) : Bool :=
  pos.1 > 0 && pos.2 > 0 && pos.1 < toI32 size.1 && pos.2 < toI32 size.2

/-- One step of the `for event in display.display.poll_events()` match. -/
def processEvent (size : Nat × Nat) (st : FrameEventState) (e : Event) :
    FrameEventState :=
  match e with
  | .Closed => { st with done := true }
  | .MouseMoved x y => { st with mouse_position := (x, y) }
  | .MouseInput .Pressed .Left =>
      if insideBounds size st.mouse_position then { st with save := true } else st
  | _ => st

/-- The whole event-poll loop of one display in one frame. -/
def processEvents (size : Nat × Nat) (st : FrameEventState) (events : List Event) :
    FrameEventState :=
  events.foldl (processEvent size) st

/-- Number of polled primary-button presses whose cached mouse position is
strictly inside the bounds at the moment the press is handled (mouse moves
earlier in the batch are taken into account).  Used to compare click count
against snapshot count. -/
def qualifyingClicks (size : Nat × Nat) : FrameEventState → List Event → Nat
  | _, [] => 0
  | st, e :: rest =>
      (match e with
       | .MouseInput .Pressed .Left =>
           if insideBounds size st.mouse_position then 1 else 0
       | _ => 0) + qualifyingClicks size (processEvent size st e) rest

/-- The environment of one display in one frame: its current inner size in
pixels (`get_inner_size_pixels`) and the polled event batch. -/
structure DisplayInput where
  size : Nat × Nat
  events : List Event
  deriving DecidableEq

/-- The name of the `N`-th snapshot file (`format!("save\x7b\x7d.png", saves)`). -/
def fileName (n : Nat) : String :=
  "save" ++ toString n ++ ".png"

/-- Event state at the top of a display's frame: the display's cached mouse
position and `done` flag, `save` reset to `false`. -/
def initEventState (d : ImageDisplay) : FrameEventState :=
  ⟨d.mouse_position, d.done, false⟩

/-- Result of one display's slice of a frame. -/
structure DisplayFrameResult where
  display : ImageDisplay
  saves : Nat
  files : List String
  draws : List (Option (List (String × ℚ)))
  deriving DecidableEq

/-- One display's slice of a frame (the body of `for display in &mut displays`):
poll events, then — if a qualifying click was seen — render off-screen and
write `save<saves>.png` bumping the shared counter, then render on-screen.
Both renders receive the frame's `duration` and the mouse position normalised
against the window size. -/
def displayFrame (di : DisplayInput) (duration : ℚ) (saves : Nat)
    (d : ImageDisplay) : DisplayFrameResult :=
  let st := processEvents di.size (initEventState d) di.events
  let d2 := { d with mouse_position := st.mouse_position, done := st.done }
  let mx : ℚ := (st.mouse_position.1 : ℚ) / (di.size.1 : ℚ)
  let my : ℚ := (st.mouse_position.2 : ℚ) / (di.size.2 : ℚ)
  if st.save then
    ⟨d2, saves + 1, [fileName saves],
      [render d2.uniforms duration mx my, render d2.uniforms duration mx my]⟩
  else
    ⟨d2, saves, [], [render d2.uniforms duration mx my]⟩

/-- Result of the whole per-display loop of a frame. -/
structure FrameDisplaysResult where
  displays : List ImageDisplay
  saves : Nat
  files : List String
  draws : List (Option (List (String × ℚ)))
  deriving DecidableEq

/-- The `for display in &mut displays` loop: each display is processed in
order, the snapshot counter threads through. -/
def displaysFrame (perDisplay : Nat → DisplayInput) (duration : ℚ) :
    List ImageDisplay → Nat → Nat → FrameDisplaysResult
  | [], _, saves => ⟨[], saves, [], []⟩
  | d :: ds, i, saves =>
      let r := displayFrame (perDisplay i) duration saves d
      let rest := displaysFrame perDisplay duration ds (i + 1) r.saves
      ⟨r.display :: rest.displays, rest.saves, r.files ++ rest.files,
        r.draws ++ rest.draws⟩

/-- The loop-carried state of `main`: the display list, the fresh-resource
counter (model artifact for window identity), the time epoch (`time`, in
nanoseconds) and the snapshot counter (`saves`). -/
structure AppState where
  displays : List ImageDisplay
  fresh : Nat
  epoch : Nat
  saves : Nat
  deriving DecidableEq

/-- The environment of one loop iteration: whether `rx.try_recv()` yields a
change notification, the outcome of the read/parse/analyse pipeline should a
reload be attempted, the instants (in nanoseconds) observed by
`Instant::now()` at the reload point and by `time.elapsed()` at the duration
computation, and each display's size and event batch. -/
structure FrameInput where
  notification : Bool
  script : ScriptResult
  reloadNow : Nat
  frameNow : Nat
  perDisplay : Nat → DisplayInput

/-- Observable result of one loop iteration. -/
structure FrameResult where
  state : AppState
  files : List String
  draws : List (Option (List (String × ℚ)))
  brk : Bool
  reloadAttempted : Bool
  deriving DecidableEq

/-- `time.elapsed().subsec_nanos() as f32 / 1000000000.0` for an elapsed time
of `n` nanoseconds, with the division taken exactly. -/
def subsec (n : Nat) : ℚ :=
  ((n % 1000000000 : ℕ) : ℚ) / 1000000000

/-- `let keep = !once && matches.is_present("keep")` from `main`. -/
def keepEffective (once keepFlag : Bool) : Bool :=
  !once && keepFlag

/-- Whether a reload outcome repopulates an empty display list (it does
exactly when it succeeds with at least one image). -/
def scriptRepopulates : ScriptResult → Bool
  | .ok (_ :: _) => true
  | _ => false

/-- One iteration of the `loop` in `main`: poll the watcher channel (only
installed when `--once` is absent) and on a notification reset the epoch and
attempt a reload; compute the frame's sub-second duration; run every display's
event poll / snapshot / draw; drop closed displays; decide whether to break. -/
def frameStep (once keep : Bool) (input : FrameInput) (s : AppState) :
    FrameResult :=
  let reload := !once && input.notification
  let epoch2 := if reload then input.reloadNow else s.epoch
  let loaded := if reload then load_images input.script s.displays s.fresh
                else ⟨s.displays, s.fresh, none⟩
  let duration := subsec (input.frameNow - epoch2)
  let r := displaysFrame input.perDisplay duration loaded.displays 0 s.saves
  let displays2 := r.displays.filter (fun d => !d.done)
  ⟨⟨displays2, loaded.fresh, epoch2, r.saves⟩, r.files, r.draws,
    displays2.isEmpty && !keep, reload⟩

/-- The `loop` of `main`, driven by an arbitrary finite prefix of environment
inputs: each iteration is a `frameStep`, and the loop stops after the first
iteration whose break condition holds.  The trace of frame results is
returned. -/
def runLoop (once keep : Bool) : List FrameInput → AppState → List FrameResult
  | [], _ => []
  | input :: rest, s =>
      let r := frameStep once keep input s
      if r.brk then [r] else r :: runLoop once keep rest r.state

/-! ## Concrete sample values, used to instantiate the theorems -/

/-- A sample image descriptor with no uniforms. -/
def exImage0 : Image := ⟨"frag0", []⟩

/-- A sample image descriptor using the elapsed-time uniform. -/
def exImage1 : Image := ⟨"frag1", [Uniform.Time]⟩

/-- A sample image descriptor using time and mouse-x. -/
def exImage2 : Image := ⟨"frag2", [Uniform.Time, Uniform.MouseX]⟩

/-- A sample pre-existing display. -/
def exDisplay0 : ImageDisplay :=
  ⟨0, "Shady Image 0", 0, mkProgram "old0", [], (10, 10), false⟩

/-- A second sample pre-existing display. -/
def exDisplay1 : ImageDisplay :=
  ⟨1, "Shady Image 1", 1, mkProgram "old1", [Uniform.MouseY], (3, 4), false⟩

/-- A loop state with no displays (e.g. after a failed initial load). -/
def exEmptyState : AppState := ⟨[], 0, 0, 0⟩

/-- A loop state with one display expecting the time uniform. -/
def exTimeState : AppState := ⟨[⟨5, "Shady Image 0", 5, mkProgram "ft", [Uniform.Time], (1, 1), false⟩], 6, 0, 0⟩

/-- A frame input with a pending change notification whose reload fails to
parse. -/
def exInputReload : FrameInput :=
  ⟨true, .parseError "boom", 42, 42, fun _ => ⟨(500, 500), []⟩⟩

/-- A frame input with no pending change notification. -/
def exQuietInput : FrameInput :=
  ⟨false, .parseError "boom", 3, 4, fun _ => ⟨(500, 500), []⟩⟩

/-- A display with the cached mouse strictly inside a 500×500 window. -/
def exClickDisplay : ImageDisplay :=
  ⟨0, "Shady Image 0", 0, mkProgram "f", [], (10, 10), false⟩

/-- An event batch with two qualifying primary-button presses in one frame. -/
def exDoubleClick : DisplayInput :=
  ⟨(500, 500), [.MouseInput .Pressed .Left, .MouseInput .Pressed .Left]⟩

/-! ## Reconciliation lemmas -/

theorem reconcile_length (imgs : List Image) :
    ∀ (ds : List ImageDisplay) (idx fresh : Nat),
      (reconcile ds imgs idx fresh).displays.length = max ds.length imgs.length := by
  induction imgs with
  | nil => intro ds idx fresh; simp [reconcile]
  | cons img rest ih =>
      intro ds idx fresh
      cases ds with
      | nil => simp [reconcile, ih]
      | cons d0 ds0 => simp [reconcile, ih]; omega

theorem reconcile_fresh (imgs : List Image) :
    ∀ (ds : List ImageDisplay) (idx fresh : Nat),
      (reconcile ds imgs idx fresh).fresh = fresh + (imgs.length - ds.length) := by
  induction imgs with
  | nil => intro ds idx fresh; simp [reconcile]
  | cons img rest ih =>
      intro ds idx fresh
      cases ds with
      | nil => simp [reconcile, ih]; omega
      | cons d0 ds0 => simp [reconcile, ih]

theorem reconcile_getElem_update (imgs : List Image) :
    ∀ (ds : List ImageDisplay) (idx fresh i : Nat) (d : ImageDisplay) (im : Image),
      ds[i]? = some d → imgs[i]? = some im →
      (reconcile ds imgs idx fresh).displays[i]? =
        some (updateDisplay d im (idx + i)) := by
  induction imgs with
  | nil => intro ds idx fresh i d im hd him; simp at him
  | cons img rest ih =>
      intro ds idx fresh i d im hd him
      cases ds with
      | nil => simp at hd
      | cons d0 ds0 =>
          cases i with
          | zero =>
              simp at hd him
              subst hd; subst him
              simp [reconcile]
          | succ i =>
              simp only [List.getElem?_cons_succ] at hd him
              have h2 := ih ds0 (idx + 1) fresh i d im hd him
              simp only [reconcile, List.getElem?_cons_succ]
              rw [show idx + (i + 1) = (idx + 1) + i from by omega]
              exact h2

theorem reconcile_getElem_new (imgs : List Image) :
    ∀ (ds : List ImageDisplay) (idx fresh i : Nat) (im : Image),
      ds.length ≤ i → imgs[i]? = some im →
      (reconcile ds imgs idx fresh).displays[i]? =
        some (newDisplay im (idx + i) (fresh + (i - ds.length))) := by
  induction imgs with
  | nil => intro ds idx fresh i im hle him; simp at him
  | cons img rest ih =>
      intro ds idx fresh i im hle him
      cases ds with
      | nil =>
          cases i with
          | zero =>
              simp at him
              subst him
              simp [reconcile]
          | succ i =>
              simp only [List.getElem?_cons_succ] at him
              have h2 := ih [] (idx + 1) (fresh + 1) i im (by simp) him
              simp only [reconcile, List.getElem?_cons_succ]
              rw [show idx + (i + 1) = (idx + 1) + i from by omega,
                  show fresh + (i + 1 - List.length ([] : List ImageDisplay)) =
                    (fresh + 1) + (i - List.length ([] : List ImageDisplay)) from by
                      simp; omega]
              exact h2
      | cons d0 ds0 =>
          cases i with
          | zero => simp at hle
          | succ i =>
              simp only [List.length_cons, Nat.add_le_add_iff_right] at hle
              simp only [List.getElem?_cons_succ] at him
              have h2 := ih ds0 (idx + 1) fresh i im hle him
              simp only [reconcile, List.getElem?_cons_succ]
              rw [show idx + (i + 1) = (idx + 1) + i from by omega,
                  show i + 1 - List.length (d0 :: ds0) = i - ds0.length from by
                    simp]
              exact h2

theorem reconcile_getElem_keep (imgs : List Image) :
    ∀ (ds : List ImageDisplay) (idx fresh i : Nat) (d : ImageDisplay),
      imgs.length ≤ i → ds[i]? = some d →
      (reconcile ds imgs idx fresh).displays[i]? = some d := by
  induction imgs with
  | nil => intro ds idx fresh i d _ hd; simpa [reconcile] using hd
  | cons img rest ih =>
      intro ds idx fresh i d hle hd
      cases ds with
      | nil => simp at hd
      | cons d0 ds0 =>
          cases i with
          | zero => simp at hle
          | succ i =>
              simp only [List.length_cons, Nat.add_le_add_iff_right] at hle
              simp only [List.getElem?_cons_succ] at hd
              have h2 := ih ds0 (idx + 1) fresh i d hle hd
              simp only [reconcile, List.getElem?_cons_succ]
              exact h2

/-! ## Claims C1, C3, C4: `load_images` reconciliation -/

/-- C1: for every reload whose image list has length `N ≥ M` (the current
display count), `load_images` succeeds and produces exactly `N` displays: the
first `M` keep their existing window handles, the remaining `N − M` carry
newly allocated handles (`fresh`, `fresh + 1`, …), and every one of the `N`
displays carries the program compiled from the new shader source and the new
uniform set. -/
theorem C1_load_images_grow (displays : List ImageDisplay) (images : List Image)
    (fresh : Nat) (h : displays.length ≤ images.length) :
    (load_images (.ok images) displays fresh).err = none
    ∧ (load_images (.ok images) displays fresh).displays.length = images.length
    ∧ (∀ i, i < displays.length →
        ((load_images (.ok images) displays fresh).displays[i]?).map ImageDisplay.window
          = (displays[i]?).map ImageDisplay.window)
    ∧ (∀ i, displays.length ≤ i → i < images.length →
        ((load_images (.ok images) displays fresh).displays[i]?).map ImageDisplay.window
          = some (fresh + (i - displays.length)))
    ∧ (∀ i, i < images.length →
        ((load_images (.ok images) displays fresh).displays[i]?).map ImageDisplay.program
          = (images[i]?).map (fun im => mkProgram im.shader)
        ∧ ((load_images (.ok images) displays fresh).displays[i]?).map ImageDisplay.uniforms
          = (images[i]?).map Image.uniforms) := by
  have hL : (load_images (.ok images) displays fresh).displays
      = (reconcile displays images 0 fresh).displays := rfl
  refine ⟨rfl, ?_, ?_, ?_, ?_⟩
  · rw [hL, reconcile_length]; omega
  · intro i hi
    have hd : displays[i]? = some displays[i] := List.getElem?_eq_getElem hi
    have him := List.getElem?_eq_getElem (lt_of_lt_of_le hi h)
    rw [hL, reconcile_getElem_update images displays 0 fresh i _ _ hd him, hd]
    rfl
  · intro i h1 h2
    have him : images[i]? = some images[i] := List.getElem?_eq_getElem h2
    rw [hL, reconcile_getElem_new images displays 0 fresh i _ h1 him]
    rfl
  · intro i hi
    have him : images[i]? = some images[i] := List.getElem?_eq_getElem hi
    by_cases hc : i < displays.length
    · have hd := List.getElem?_eq_getElem hc
      rw [hL, reconcile_getElem_update images displays 0 fresh i _ _ hd him, him]
      exact ⟨rfl, rfl⟩
    · rw [hL, reconcile_getElem_new images displays 0 fresh i _ (by omega) him, him]
      exact ⟨rfl, rfl⟩

/-- C3: a reload whose read, parse or semantic analysis fails returns the
corresponding error and leaves the display list (and the fresh-resource
counter) completely unchanged. -/
theorem C3_load_images_failure_untouched (e : String)
    (displays : List ImageDisplay) (fresh : Nat) :
    load_images (.ioError e) displays fresh = ⟨displays, fresh, some (.IOError e)⟩
    ∧ load_images (.parseError e) displays fresh = ⟨displays, fresh, some (.Parse e)⟩
    ∧ load_images (.analyseError e) displays fresh = ⟨displays, fresh, some (.Analyse e)⟩ :=
  ⟨rfl, rfl, rfl⟩

/-- C4: for a successful reload with `N < M` images, all `M` displays stay
present, the first `N` become the positional update of their old state, every
display at a position at or past `N` is left untouched; and a positional
update changes exactly the program, the uniform set and the window title,
preserving the window handle, vertex buffer, mouse position and closed
flag. -/
theorem C4_load_images_shrink (displays : List ImageDisplay) (images : List Image)
    (fresh : Nat) (h : images.length < displays.length) :
    (load_images (.ok images) displays fresh).displays.length = displays.length
    ∧ (∀ i (d : ImageDisplay) (im : Image), displays[i]? = some d → images[i]? = some im →
        (load_images (.ok images) displays fresh).displays[i]? =
          some (updateDisplay d im i))
    ∧ (∀ i, images.length ≤ i →
        (load_images (.ok images) displays fresh).displays[i]? = displays[i]?)
    ∧ (∀ (d : ImageDisplay) (im : Image) (idx : Nat),
        (updateDisplay d im idx).window = d.window
        ∧ (updateDisplay d im idx).buffer = d.buffer
        ∧ (updateDisplay d im idx).mouse_position = d.mouse_position
        ∧ (updateDisplay d im idx).done = d.done
        ∧ (updateDisplay d im idx).program = mkProgram im.shader
        ∧ (updateDisplay d im idx).uniforms = im.uniforms
        ∧ (updateDisplay d im idx).title = "Shady Image " ++ toString idx) := by
  have hL : (load_images (.ok images) displays fresh).displays
      = (reconcile displays images 0 fresh).displays := rfl
  refine ⟨?_, ?_, ?_, ?_⟩
  · rw [hL, reconcile_length]; omega
  · intro i d im hd him
    rw [hL, reconcile_getElem_update images displays 0 fresh i _ _ hd him]
    simp
  · intro i hi
    by_cases hc : i < displays.length
    · have hd := List.getElem?_eq_getElem hc
      rw [hL, reconcile_getElem_keep images displays 0 fresh i _ hi hd, hd]
    · have h1 : displays[i]? = none := List.getElem?_eq_none (by omega)
      have h2 : (reconcile displays images 0 fresh).displays[i]? = none := by
        apply List.getElem?_eq_none
        rw [reconcile_length]
        omega
      rw [hL, h1, h2]
  · intro d im idx
    exact ⟨rfl, rfl, rfl, rfl, rfl, rfl, rfl⟩

/-! ## Claim C2: uniform dispatch of `render` -/

theorem render_legal_eq (us : List Uniform) (h : legalUniforms us) (t mx my : ℚ) :
    render us t mx my =
      some (us.map fun u => (uniformName u, uniformValue t mx my u)) := by
  have hmem : us ∈ ([Uniform.Time, Uniform.MouseX, Uniform.MouseY]).sublists :=
    List.mem_sublists.mpr h
  fin_cases hmem <;> rfl

theorem render_illegal_none (us : List Uniform) (t mx my : ℚ)
    (h : ¬ legalUniforms us) : render us t mx my = none := by
  rcases us with _ | ⟨u1, us⟩
  · exact absurd (by unfold legalUniforms; decide) h
  rcases us with _ | ⟨u2, us⟩
  · cases u1 <;> exact absurd (by unfold legalUniforms; decide) h
  rcases us with _ | ⟨u3, us⟩
  · cases u1 <;> cases u2 <;>
      first
        | exact absurd (by unfold legalUniforms; decide) h
        | rfl
  rcases us with _ | ⟨u4, us⟩
  · cases u1 <;> cases u2 <;> cases u3 <;>
      first
        | exact absurd (by unfold legalUniforms; decide) h
        | rfl
  · cases u1 <;> cases u2 <;> cases u3 <;> rfl

/-- C2: for every uniform list the external analyser can legally produce (an
ordered subsequence of `[Time, MouseX, MouseY]`, eight in all), `render` binds
exactly the named values of that list, in order, and nothing else — in
particular the dispatch never reaches the `panic!` arm; and every list outside
those eight would hit the `panic!` arm. -/
theorem C2_render_binds_exactly (us : List Uniform) (t mx my : ℚ)
    (h : legalUniforms us) :
    render us t mx my =
      some (us.map fun u => (uniformName u, uniformValue t mx my u))
    ∧ render us t mx my ≠ none
    ∧ (∀ vs : List Uniform, ¬ legalUniforms vs → render vs t mx my = none) := by
  refine ⟨render_legal_eq us h t mx my, ?_, fun vs hvs => render_illegal_none vs t mx my hvs⟩
  rw [render_legal_eq us h t mx my]
  simp

/-- Witness for C2 at the spec's example `{elapsed-time, mouse-x}`. -/
theorem C2_witness :
    legalUniforms [Uniform.Time, Uniform.MouseX]
    ∧ render [Uniform.Time, Uniform.MouseX] 1 2 3 =
        some [("time", (1 : ℚ)), ("mouse_x", (2 : ℚ))] :=
  ⟨by unfold legalUniforms; decide,
    by simpa using
      (C2_render_binds_exactly [Uniform.Time, Uniform.MouseX] 1 2 3
        (by unfold legalUniforms; decide)).1⟩

/-! ## Claims C5, C9: click handling and snapshot collapse -/

theorem toI32_eq_of_lt (n : Nat) (h : n < 2 ^ 31) : toI32 n = n := by
  unfold toI32
  have h1 : n + 2 ^ 31 < 2 ^ 32 := by omega
  rw [Nat.mod_eq_of_lt h1]
  push_cast
  omega

/-- C5: a primary-button press marks the frame for a snapshot exactly when the
cached mouse position is strictly inside the window's pixel bounds (both
coordinates strictly above `0` and strictly below the matching dimension); a
press on a boundary pixel or outside leaves the snapshot flag unset. -/
theorem C5_click_inside_iff (size : Nat × Nat) (st : FrameEventState)
    (h1 : size.1 < 2 ^ 31) (h2 : size.2 < 2 ^ 31) (hs : st.save = false) :
    ((processEvent size st (.MouseInput .Pressed .Left)).save = true
      ↔ (0 < st.mouse_position.1 ∧ 0 < st.mouse_position.2
          ∧ st.mouse_position.1 < (size.1 : Int)
          ∧ st.mouse_position.2 < (size.2 : Int)))
    ∧ (¬ (0 < st.mouse_position.1 ∧ 0 < st.mouse_position.2
          ∧ st.mouse_position.1 < (size.1 : Int)
          ∧ st.mouse_position.2 < (size.2 : Int)) →
        (processEvent size st (.MouseInput .Pressed .Left)).save = false) := by
  have e1 : toI32 size.1 = size.1 := toI32_eq_of_lt _ h1
  have e2 : toI32 size.2 = size.2 := toI32_eq_of_lt _ h2
  have hmain : (processEvent size st (.MouseInput .Pressed .Left)).save = true
      ↔ (0 < st.mouse_position.1 ∧ 0 < st.mouse_position.2
          ∧ st.mouse_position.1 < (size.1 : Int)
          ∧ st.mouse_position.2 < (size.2 : Int)) := by
    simp only [processEvent, insideBounds, e1, e2]
    split
    · rename_i hin
      simp only [Bool.and_eq_true, decide_eq_true_eq] at hin
      simpa using ⟨hin.1.1.1, hin.1.1.2, hin.1.2, hin.2⟩
    · rename_i hin
      simp only [Bool.and_eq_true, decide_eq_true_eq] at hin
      simp only [hs, Bool.false_eq_true, false_iff]
      intro hc
      exact hin ⟨⟨⟨hc.1, hc.2.1⟩, hc.2.2.1⟩, hc.2.2.2⟩
  refine ⟨hmain, fun hnot => ?_⟩
  cases hsv : (processEvent size st (.MouseInput .Pressed .Left)).save
  · rfl
  · exact absurd (hmain.mp hsv) hnot

/-- C9: a display writes at most one snapshot file in a frame — all qualifying
presses polled in one batch collapse into the single `save` flag, so the
counter advances by at most one. -/
theorem C9_at_most_one_snapshot (di : DisplayInput) (duration : ℚ) (saves : Nat)
    (d : ImageDisplay) :
    (displayFrame di duration saves d).files.length ≤ 1
    ∧ (displayFrame di duration saves d).saves ≤ saves + 1 := by
  simp only [displayFrame]
  split <;> simp

/-- Witness for C1: one existing display, three images. -/
theorem C1_witness :
    [exDisplay0].length ≤ [exImage0, exImage1, exImage2].length
    ∧ (load_images (.ok [exImage0, exImage1, exImage2]) [exDisplay0] 7).displays.length
        = [exImage0, exImage1, exImage2].length :=
  ⟨by decide,
    (C1_load_images_grow [exDisplay0] [exImage0, exImage1, exImage2] 7 (by decide)).2.1⟩

/-- Witness for C4: two existing displays, one image. -/
theorem C4_witness :
    [exImage0].length < [exDisplay0, exDisplay1].length
    ∧ (load_images (.ok [exImage0]) [exDisplay0, exDisplay1] 7).displays.length
        = [exDisplay0, exDisplay1].length :=
  ⟨by decide,
    (C4_load_images_shrink [exDisplay0, exDisplay1] [exImage0] 7 (by decide)).1⟩

/-- Witness for C5: a press at cached position (10, 10) in a 500×500 window
requests a snapshot; a press at boundary position (0, 10) does not. -/
theorem C5_witness :
    ((500 : Nat) < 2 ^ 31
      ∧ (processEvent (500, 500) ⟨(10, 10), false, false⟩
          (.MouseInput .Pressed .Left)).save = true)
    ∧ (processEvent (500, 500) ⟨(0, 10), false, false⟩
        (.MouseInput .Pressed .Left)).save = false :=
  ⟨⟨by decide,
    (C5_click_inside_iff (500, 500) ⟨(10, 10), false, false⟩ (by decide) (by decide)
      rfl).1.mpr (by decide)⟩,
    (C5_click_inside_iff (500, 500) ⟨(0, 10), false, false⟩ (by decide) (by decide)
      rfl).2 (by decide)⟩

/-! ## Claim C6: epoch reset and sub-second elapsed time -/

theorem subsec_nonneg (n : Nat) : 0 ≤ subsec n := by
  unfold subsec
  positivity

theorem subsec_lt_one (n : Nat) : subsec n < 1 := by
  unfold subsec
  rw [div_lt_one (by norm_num)]
  exact_mod_cast Nat.mod_lt _ (by norm_num)

theorem subsec_period (n : Nat) : subsec (n + 1000000000) = subsec n := by
  unfold subsec
  rw [Nat.add_mod_right]

theorem displayFrame_draws (di : DisplayInput) (duration : ℚ) (saves : Nat)
    (d : ImageDisplay) :
    ∀ dr ∈ (displayFrame di duration saves d).draws,
      ∃ us mx my, dr = render us duration mx my := by
  simp only [displayFrame]
  split <;> intro dr hdr <;> simp only [List.mem_cons, List.mem_singleton,
    List.not_mem_nil, or_false] at hdr
  · rcases hdr with h | h <;> exact ⟨_, _, _, h⟩
  · exact ⟨_, _, _, hdr⟩

theorem displaysFrame_draws (perDisplay : Nat → DisplayInput) (duration : ℚ) :
    ∀ (ds : List ImageDisplay) (i saves : Nat),
      ∀ dr ∈ (displaysFrame perDisplay duration ds i saves).draws,
        ∃ us mx my, dr = render us duration mx my := by
  intro ds
  induction ds with
  | nil => intro i saves dr hdr; simp [displaysFrame] at hdr
  | cons d ds ih =>
      intro i saves dr hdr
      simp only [displaysFrame, List.mem_append] at hdr
      rcases hdr with hdr | hdr
      · exact displayFrame_draws (perDisplay i) duration saves d dr hdr
      · exact ih (i + 1) _ dr hdr

theorem frameStep_draws (once keep : Bool) (input : FrameInput) (s : AppState) :
    ∀ dr ∈ (frameStep once keep input s).draws,
      ∃ us mx my,
        dr = render us
          (subsec (input.frameNow - (frameStep once keep input s).state.epoch)) mx my := by
  intro dr hdr
  exact displaysFrame_draws input.perDisplay _ _ 0 s.saves dr hdr

/-- C6: when the watcher is installed and a change notification is pending,
the frame resets the epoch to the current instant no matter how the reload
turns out; the elapsed-time value handed to every draw of the frame is the
sub-second fraction of the time since the epoch — always in `[0, 1)` and
invariant under adding a whole second, i.e. derived from the sub-second
component only, never from the total elapsed time. -/
theorem C6_epoch_reset_and_subsec (once keep : Bool) (input : FrameInput)
    (s : AppState) :
    ((!once && input.notification) = true →
      (frameStep once keep input s).state.epoch = input.reloadNow)
    ∧ 0 ≤ subsec (input.frameNow - (frameStep once keep input s).state.epoch)
    ∧ subsec (input.frameNow - (frameStep once keep input s).state.epoch) < 1
    ∧ (∀ n : Nat, subsec (n + 1000000000) = subsec n)
    ∧ (∀ dr ∈ (frameStep once keep input s).draws,
        ∃ us mx my,
          dr = render us
            (subsec (input.frameNow - (frameStep once keep input s).state.epoch))
            mx my) := by
  refine ⟨?_, subsec_nonneg _, subsec_lt_one _, subsec_period,
    frameStep_draws once keep input s⟩
  intro h
  simp [frameStep, h]

/-- Witness for C6: a pending notification whose reload fails still resets the
epoch to the observed instant. -/
theorem C6_witness :
    ((!false && exInputReload.notification) = true)
    ∧ (frameStep false false exInputReload exTimeState).state.epoch
        = exInputReload.reloadNow :=
  ⟨rfl, (C6_epoch_reset_and_subsec false false exInputReload exTimeState).1 rfl⟩

/-! ## Claim C8: loop termination and the keep flag -/

/-- C8: the loop breaks at the end of a frame exactly when the display list is
empty after closed displays are dropped and the effective keep option is off;
`--keep` is ignored whenever `--once` is given; and with keep in effect a
frame that starts with zero displays and is not repopulated by a reload
performs no per-window rendering, writes no file, and does not break. -/
theorem C8_loop_termination (once keepFlag : Bool) (input : FrameInput)
    (s : AppState) :
    ((frameStep once (keepEffective once keepFlag) input s).brk
      = ((frameStep once (keepEffective once keepFlag) input s).state.displays.isEmpty
          && !(keepEffective once keepFlag)))
    ∧ keepEffective true keepFlag = false
    ∧ (keepEffective once keepFlag = true → s.displays = [] →
        (input.notification = false ∨ scriptRepopulates input.script = false) →
        (frameStep once (keepEffective once keepFlag) input s).draws = []
        ∧ (frameStep once (keepEffective once keepFlag) input s).files = []
        ∧ (frameStep once (keepEffective once keepFlag) input s).brk = false)
    ∧ (∀ rest : List FrameInput,
        (frameStep once (keepEffective once keepFlag) input s).brk = true →
        runLoop once (keepEffective once keepFlag) (input :: rest) s
          = [frameStep once (keepEffective once keepFlag) input s])
    ∧ (∀ rest : List FrameInput,
        (frameStep once (keepEffective once keepFlag) input s).brk = false →
        runLoop once (keepEffective once keepFlag) (input :: rest) s
          = frameStep once (keepEffective once keepFlag) input s
            :: runLoop once (keepEffective once keepFlag) rest
                (frameStep once (keepEffective once keepFlag) input s).state) := by
  refine ⟨rfl, rfl, ?_, ?_, ?_⟩
  · intro hk hd hscript
    have hload : (if (!once && input.notification) = true
        then load_images input.script s.displays s.fresh
        else ⟨s.displays, s.fresh, none⟩).displays = [] := by
      by_cases hr : (!once && input.notification) = true
      · rw [if_pos hr]
        cases hsc : input.script with
        | ioError e => simp [load_images, hd]
        | parseError e => simp [load_images, hd]
        | analyseError e => simp [load_images, hd]
        | ok images =>
            cases images with
            | nil => simp [load_images, hd, reconcile]
            | cons im ims =>
                rw [hsc] at hscript
                simp [scriptRepopulates] at hscript
                simp [hscript] at hr
      · rw [if_neg hr]
        exact hd
    refine ⟨?_, ?_, ?_⟩
    · show (displaysFrame input.perDisplay _ _ 0 s.saves).draws = []
      rw [hload]
      rfl
    · show (displaysFrame input.perDisplay _ _ 0 s.saves).files = []
      rw [hload]
      rfl
    · show (_ && !(keepEffective once keepFlag)) = false
      rw [hk]
      simp
  · intro rest h
    simp [runLoop, h]
  · intro rest h
    simp [runLoop, h]

/-- Witness for C8: with `--keep` and an empty display list, a frame whose
reload fails draws nothing and the loop does not break. -/
theorem C8_witness :
    keepEffective false true = true
    ∧ (frameStep false (keepEffective false true) exInputReload exEmptyState).draws = []
    ∧ (frameStep false (keepEffective false true) exInputReload exEmptyState).brk = false :=
  ⟨rfl,
    ((C8_loop_termination false true exInputReload exEmptyState).2.2.1 rfl rfl
      (Or.inr rfl)).1,
    ((C8_loop_termination false true exInputReload exEmptyState).2.2.1 rfl rfl
      (Or.inr rfl)).2.2⟩

/-! ## Claim C10: exit after a single iteration with no displays -/

/-- C10 counterexample: the display list is empty at the end of the first
iteration and keep is off, so the loop exits after one iteration — yet a
reload was attempted in that first iteration, because a change notification
was already pending at the first poll of the watcher channel. -/
theorem C10_counterexample :
    (frameStep false false exInputReload exEmptyState).state.displays = []
    ∧ (runLoop false false [exInputReload, exQuietInput] exEmptyState).length = 1
    ∧ (runLoop false false [exInputReload, exQuietInput] exEmptyState).countP
        FrameResult.reloadAttempted = 1 :=
  ⟨rfl, rfl, rfl⟩

/-- C10 (amended): if the display list is empty at the end of the first loop
iteration and keep is not in effect, the loop exits after that single
iteration even when a file watcher is installed, so no reload is attempted in
any later iteration — at most the first iteration's own reload ever happens. -/
theorem C10_single_iteration_exit (once : Bool) (i1 : FrameInput)
    (rest : List FrameInput) (s : AppState)
    (h : (frameStep once false i1 s).state.displays = []) :
    runLoop once false (i1 :: rest) s = [frameStep once false i1 s]
    ∧ (runLoop once false (i1 :: rest) s).countP FrameResult.reloadAttempted ≤ 1 := by
  have hb : (frameStep once false i1 s).brk = true := by
    have hbe : (frameStep once false i1 s).brk
        = ((frameStep once false i1 s).state.displays.isEmpty && !false) := rfl
    rw [hbe, h]
    rfl
  have hrun : runLoop once false (i1 :: rest) s = [frameStep once false i1 s] := by
    simp [runLoop, hb]
  refine ⟨hrun, ?_⟩
  rw [hrun]
  cases hra : (frameStep once false i1 s).reloadAttempted <;>
    simp [List.countP_cons, List.countP_nil, hra]

/-- Witness for C10 (amended): a quiet first frame over an empty display list
exits after exactly one iteration. -/
theorem C10_witness :
    (frameStep false false exQuietInput exEmptyState).state.displays = []
    ∧ runLoop false false [exQuietInput, exInputReload] exEmptyState
        = [frameStep false false exQuietInput exEmptyState] :=
  ⟨rfl,
    (C10_single_iteration_exit false exQuietInput [exInputReload] exEmptyState rfl).1⟩

/-! ## Claim C7: snapshot files -/

theorem processEvents_save (size : Nat × Nat) :
    ∀ (events : List Event) (st : FrameEventState),
      (processEvents size st events).save
        = (st.save || decide (0 < qualifyingClicks size st events)) := by
  intro events
  induction events with
  | nil => intro st; simp [processEvents, qualifyingClicks]
  | cons e rest ih =>
      intro st
      have hstep : processEvents size st (e :: rest)
          = processEvents size (processEvent size st e) rest := rfl
      rw [hstep, ih]
      cases e with
      | Closed => simp [processEvent, qualifyingClicks]
      | MouseMoved x y => simp [processEvent, qualifyingClicks]
      | Other => simp [processEvent, qualifyingClicks]
      | MouseInput es mb =>
          cases es with
          | Released => simp [processEvent, qualifyingClicks]
          | Pressed =>
              cases mb with
              | Left =>
                  by_cases hin : insideBounds size st.mouse_position
                  · simp [processEvent, qualifyingClicks, hin]
                  · simp [processEvent, qualifyingClicks, hin]
              | Right => simp [processEvent, qualifyingClicks]
              | Middle => simp [processEvent, qualifyingClicks]
              | OtherButton => simp [processEvent, qualifyingClicks]

theorem displayFrame_files (di : DisplayInput) (duration : ℚ) (saves : Nat)
    (d : ImageDisplay) :
    (displayFrame di duration saves d).files
        = (if (processEvents di.size (initEventState d) di.events).save
           then [fileName saves] else [])
    ∧ (displayFrame di duration saves d).saves
        = (if (processEvents di.size (initEventState d) di.events).save
           then saves + 1 else saves) := by
  simp only [displayFrame]
  split <;> rename_i h <;> simp [h]

theorem displaysFrame_files (perDisplay : Nat → DisplayInput) (duration : ℚ) :
    ∀ (ds : List ImageDisplay) (i saves : Nat),
      ∃ k, (displaysFrame perDisplay duration ds i saves).files
            = (List.range k).map (fun j => fileName (saves + j))
        ∧ (displaysFrame perDisplay duration ds i saves).saves = saves + k := by
  intro ds
  induction ds with
  | nil =>
      intro i saves
      exact ⟨0, by simp [displaysFrame], by simp [displaysFrame]⟩
  | cons d ds ih =>
      intro i saves
      obtain ⟨hf, hs⟩ := displayFrame_files (perDisplay i) duration saves d
      by_cases hsv : (processEvents (perDisplay i).size (initEventState d)
          (perDisplay i).events).save
      · have hf2 : (displayFrame (perDisplay i) duration saves d).files
            = [fileName saves] := by rw [hf, if_pos hsv]
        have hs2 : (displayFrame (perDisplay i) duration saves d).saves
            = saves + 1 := by rw [hs, if_pos hsv]
        obtain ⟨k, hk1, hk2⟩ := ih (i + 1) (saves + 1)
        refine ⟨k + 1, ?_, ?_⟩
        · have harith : ∀ j : ℕ, saves + 1 + j = saves + (j + 1) := by omega
          simp only [displaysFrame, hf2, hs2, hk1, List.range_succ_eq_map,
            List.map_map, List.map_cons, List.singleton_append]
          simp [harith, Function.comp]
        · simp only [displaysFrame, hs2, hk2]
          omega
      · have hf2 : (displayFrame (perDisplay i) duration saves d).files = [] := by
          rw [hf, if_neg hsv]
        have hs2 : (displayFrame (perDisplay i) duration saves d).saves = saves := by
          rw [hs, if_neg hsv]
        obtain ⟨k, hk1, hk2⟩ := ih (i + 1) saves
        refine ⟨k, ?_, ?_⟩
        · simp only [displaysFrame, hf2, hs2, hk1, List.nil_append]
        · simp only [displaysFrame, hs2, hk2]

theorem frameStep_files (once keep : Bool) (input : FrameInput) (s : AppState) :
    ∃ k, (frameStep once keep input s).files
          = (List.range k).map (fun j => fileName (s.saves + j))
      ∧ (frameStep once keep input s).state.saves = s.saves + k := by
  obtain ⟨k, h1, h2⟩ := displaysFrame_files input.perDisplay
      (subsec (input.frameNow -
        (if (!once && input.notification) = true then input.reloadNow else s.epoch)))
      ((if (!once && input.notification) = true
          then load_images input.script s.displays s.fresh
          else ⟨s.displays, s.fresh, none⟩).displays) 0 s.saves
  exact ⟨k, h1, h2⟩

theorem runLoop_files (once keep : Bool) :
    ∀ (inputs : List FrameInput) (s : AppState),
      ∃ k, ((runLoop once keep inputs s).map FrameResult.files).flatten
            = (List.range k).map (fun j => fileName (s.saves + j)) := by
  intro inputs
  induction inputs with
  | nil => intro s; exact ⟨0, by simp [runLoop]⟩
  | cons input rest ih =>
      intro s
      obtain ⟨k1, hf, hsv⟩ := frameStep_files once keep input s
      by_cases hb : (frameStep once keep input s).brk = true
      · refine ⟨k1, ?_⟩
        simp [runLoop, hb, hf]
      · obtain ⟨k2, h2⟩ := ih (frameStep once keep input s).state
        rw [hsv] at h2
        refine ⟨k1 + k2, ?_⟩
        have harith : ∀ j : ℕ, s.saves + k1 + j = s.saves + (k1 + j) := by omega
        simp only [runLoop, if_neg hb, List.map_cons, List.flatten, hf, h2,
          List.range_add, List.map_append, List.map_map]
        simp [harith, Function.comp]

/-- C7 counterexample: two qualifying primary-button presses polled in the
same frame's event batch produce a single PNG file, not one file per click. -/
theorem C7_counterexample :
    qualifyingClicks exDoubleClick.size (initEventState exClickDisplay)
        exDoubleClick.events = 2
    ∧ (displayFrame exDoubleClick 0 0 exClickDisplay).files.length = 1 :=
  ⟨by decide, by decide⟩

/-- C7 (amended): every frame in which a display polls at least one qualifying
click writes exactly one PNG, named from the current shared counter; and over
a whole run starting with the counter at `0` the written names are exactly
`save0.png, save1.png, …` — gap-free, monotonically increasing, shared across
all displays and frames. -/
theorem C7_snapshot_sequence (di : DisplayInput) (duration : ℚ) (saves : Nat)
    (d : ImageDisplay)
    (hq : 1 ≤ qualifyingClicks di.size (initEventState d) di.events) :
    (displayFrame di duration saves d).files = [fileName saves]
    ∧ (∀ (once keep : Bool) (inputs : List FrameInput)
        (displays : List ImageDisplay) (fresh epoch : Nat),
        ∃ k, ((runLoop once keep inputs ⟨displays, fresh, epoch, 0⟩).map
                FrameResult.files).flatten
              = (List.range k).map fileName) := by
  constructor
  · have hsv : (processEvents di.size (initEventState d) di.events).save = true := by
      rw [processEvents_save]
      have hz : (initEventState d).save = false := rfl
      rw [hz]
      simp only [Bool.false_or, decide_eq_true_eq]
      omega
    obtain ⟨hf, _⟩ := displayFrame_files di duration saves d
    rw [hf, if_pos hsv]
  · intro once keep inputs displays fresh epoch
    obtain ⟨k, hk⟩ := runLoop_files once keep inputs ⟨displays, fresh, epoch, 0⟩
    exact ⟨k, by simpa using hk⟩

/-- Witness for C7 (amended): one qualifying double-click frame writes exactly
`save5.png` when the counter stands at `5`. -/
theorem C7_witness :
    1 ≤ qualifyingClicks exDoubleClick.size (initEventState exClickDisplay)
        exDoubleClick.events
    ∧ (displayFrame exDoubleClick 0 5 exClickDisplay).files = [fileName 5] :=
  ⟨by decide,
    (C7_snapshot_sequence exDoubleClick 0 5 exClickDisplay (by decide)).1⟩

end Shady
